import Mathlib

/-!
Shallow embedding of the instant-runoff-voting program (irv.py): ballot
validation, the ballot box, and the round-based election engine, together
with theorems checking the specification's claims against this embedding.
Python dictionaries keyed by proposals are modelled as association lists in
key-insertion order; program aborts (exit / KeyError / empty max) are
modelled with Option and Except; the floating-point threshold fractions
(1/3 and 3/4 in the source) are modelled as exact fractions given by a
numerator/denominator pair of naturals, with the ceiling of
count * numerator / denominator computed by ceiling division; the lemma
requiredVotes_eq_ceil ties that computation to the rational-valued
ceiling formula used by the specification.
-/

namespace IRVoting

/-- Global constant ELIGIBILITY_THRESHOLD = 1 / 3 from the source. -/
def ELIGIBILITY_THRESHOLD : ℚ := 1 / 3

/-- Global constant PARTICIPATION_THRESHOLD = 3 / 4 from the source. -/
def PARTICIPATION_THRESHOLD : ℚ := 3 / 4

/-- Global constant ELIGIBLE_VOTERS = 5 from the source. -/
def ELIGIBLE_VOTERS : ℕ := 5

/-- The hardcoded proposal tuple from the source. -/
def proposalsDefault : List String := ["p1", "p2", "p3"]

/-- Dataclass Votes: optional favour list and optional against list
(both default to None in the source). -/
structure Votes where
  in_favour : Option (List String)
  against : Option (List String)
deriving DecidableEq

/-- A Ballot holds the proposal tuple it was cast against and the Votes. -/
structure Ballot where
  proposals : List String
  votes : Votes
deriving DecidableEq

/-- Property Ballot.in_favour: the favour list, or [] when unset
(`self.votes.in_favour or []`). -/
def Ballot.in_favour (b : Ballot) : List String :=
  b.votes.in_favour.getD []

/-- Property Ballot.against: the against list, or [] when unset. -/
def Ballot.againstVotes (b : Ballot) : List String :=
  b.votes.against.getD []

/-- `self.all_votes = [*self.against, *self.in_favour]` from the
Ballot constructor. -/
def Ballot.all_votes (b : Ballot) : List String :=
  b.againstVotes ++ b.in_favour

/-- The two validation failures of Ballot.validate. -/
inductive VoteError
  | DuplicateVoteError
  | UnknownProposalError (p : String)
deriving DecidableEq

instance {α β : Type} [DecidableEq α] [DecidableEq β] :
    DecidableEq (Except α β) := fun a b =>
  match a, b with
  | .ok x, .ok y =>
      match decEq x y with
      | isTrue h => isTrue (by rw [h])
      | isFalse h => isFalse (fun hh => h (by injection hh))
  | .error e, .error f =>
      match decEq e f with
      | isTrue h => isTrue (by rw [h])
      | isFalse h => isFalse (fun hh => h (by injection hh))
  | .ok _, .error _ => isFalse (fun hh => by injection hh)
  | .error _, .ok _ => isFalse (fun hh => by injection hh)

/-- The first element of the combined vote list that is not a member of
the proposal tuple (the loop of Ballot.validate). -/
def findUnknown (ps : List String) : List String → Option String
  | [] => none
  | x :: xs => if x ∈ ps then findUnknown ps xs else some x

/-- Ballot.validate: first the duplicate check over the combined list
(`sorted(all_votes) != sorted(set(all_votes))`), then the membership
check of each voted proposal against the proposal tuple. -/
def Ballot.validate (b : Ballot) : Except VoteError Unit :=
  if ¬ b.all_votes.Nodup then .error .DuplicateVoteError
  else
    match findUnknown b.proposals b.all_votes with
    | some p => .error (.UnknownProposalError p)
    | none => .ok ()

/-- Constructing `Ballot(proposals, votes)`: the constructor stores the
fields and runs validate, aborting on failure. -/
def mkBallot (ps : List String) (v : Votes) : Except VoteError Ballot :=
  match (Ballot.mk ps v).validate with
  | .ok _ => .ok (Ballot.mk ps v)
  | .error e => .error e

/-- A Ballot object that exists passed its constructor's validation. -/
def Ballot.Valid (b : Ballot) : Prop := b.validate = .ok ()

instance (b : Ballot) : Decidable b.Valid :=
  inferInstanceAs (Decidable (b.validate = .ok ()))

/-- The two failures of the BallotBox operations. -/
inductive BoxError
  | CapacityMismatchError
  | InsufficientParticipationError
deriving DecidableEq

/-- BallotBox: insertion-ordered entries plus the recorded proposal-set
cardinality (written on the first addition, read afterwards). -/
structure BallotBox where
  entries : List Ballot
  size : ℕ
deriving DecidableEq

/-- `BallotBox()` starts with no entries; `size` is not yet meaningful
(the source sets the attribute on the first addition before reading it). -/
def BallotBox.empty : BallotBox := ⟨[], 0⟩

/-- BallotBox.addBallot: on an empty box record the size from the ballot,
then reject a ballot whose proposal count differs from the recorded size
leaving the box unchanged, otherwise append. -/
def BallotBox.addBallot (box : BallotBox) (b : Ballot) :
    BallotBox × Option BoxError :=
  let sz := if box.entries.length = 0 then b.proposals.length else box.size
  if b.proposals.length ≠ sz then (box, some .CapacityMismatchError)
  else ({ entries := box.entries ++ [b], size := sz }, none)

/-- Adding a list of ballots in order, aborting at the first rejection
(the source program exits there). -/
def BallotBox.addBallots (box : BallotBox) :
    List Ballot → Except BoxError BallotBox
  | [] => .ok box
  | b :: bs =>
    match box.addBallot b with
    | (box2, none) => box2.addBallots bs
    | (_, some e) => .error e

/-- The ceiling of n * (tn / td): the required-vote computation
`ceil(n * threshold)` shared by validate_participation and passes, for the
threshold fraction tn / td. -/
def requiredVotes (tn td n : ℕ) : ℕ :=
  (n * tn + td - 1) / td

/-- BallotBox.validate_participation, with the two global constants of the
source passed explicitly (the fraction pn / pd is the participation
threshold): fails when there are fewer entries than
ceil(eligible voters times participation threshold). -/
def BallotBox.validate_participation (ev pn pd : ℕ) (box : BallotBox) :
    Option BoxError :=
  if box.entries.length < requiredVotes pn pd ev then
    some .InsufficientParticipationError
  else none

/-- IRV.passes, with the global eligibility threshold passed explicitly as
the fraction tn / td: the prominent vote count meets
ceil(number of entries times threshold). -/
def passes (tn td n c : ℕ) : Bool :=
  decide (requiredVotes tn td n ≤ c)

/-- IRV.init_counter: the dictionary mapping each proposal of the first
ballot's proposal tuple to zero, as an association list in key order. -/
def init_counter (props : List String) : List (String × ℕ) :=
  props.map (fun p => (p, 0))

/-- `counter[k] += 1` on a dictionary-as-association-list: increments the
first entry with key k, and is None (KeyError) when the key is missing. -/
def incr (k : String) : List (String × ℕ) → Option (List (String × ℕ))
  | [] => none
  | (a, v) :: rest =>
    if a = k then some ((a, v + 1) :: rest)
    else (incr k rest).map (fun r => (a, v) :: r)

/-- One iteration of the counting loop of IRV.round_stats: a ballot with a
non-empty favour list increments the counter of its first entry. -/
def tallyBallot (c : List (String × ℕ)) (b : Ballot) :
    Option (List (String × ℕ)) :=
  match b.in_favour with
  | [] => some c
  | x :: _ => incr x c

/-- IRV.round_stats: initialize the counter from the first ballot's
proposals (IndexError, hence None, on an empty box) and count every
ballot's first favoured proposal (KeyError, hence None, on a miss). -/
def round_stats (entries : List Ballot) : Option (List (String × ℕ)) :=
  match entries with
  | [] => none
  | b0 :: _ => entries.foldlM tallyBallot (init_counter b0.proposals)

/-- IRV.find_most_prominent: Python max over the stats items by value,
which returns the first item attaining the maximum; None (ValueError)
on an empty dictionary. -/
def find_most_prominent : List (String × ℕ) → Option (String × ℕ)
  | [] => none
  | x :: xs => some (xs.foldl (fun best y => if best.2 < y.2 then y else best) x)

/-- The value of Python `min(items, key=value)[1]`: the minimum value of
an association list (0 on an empty list, where the source never reads it). -/
def minVal : List (String × ℕ) → ℕ
  | [] => 0
  | x :: xs => xs.foldl (fun m y => min m y.2) x.2

/-- IRV.find_least_prominent: pops every zero-count key out of the stats
dictionary in place (the local alias shares the dictionary), and returns
both the popped dictionary and the keys attaining the minimum count among
the remaining, all positive, entries. -/
def find_least_prominent (stats : List (String × ℕ)) :
    List (String × ℕ) × List String :=
  let pos := stats.filter (fun p => p.2 != 0)
  (pos, (pos.filter (fun p => p.2 == minVal pos)).map Prod.fst)

/-- `ballot.in_favour.remove(proposal)` guarded by membership: erase the
proposal from the stored favour list when present (an unset favour list
stays unset). -/
def discardBallot (p : String) (b : Ballot) : Ballot :=
  { b with votes := { b.votes with in_favour := b.votes.in_favour.map (fun l => l.erase p) } }

/-- IRV.discard: remove each least-prominent proposal from every ballot's
favour list. -/
def discard (ks : List String) (entries : List Ballot) : List Ballot :=
  ks.foldl (fun es p => es.map (discardBallot p)) entries

/-- The two terminal reports of IRV.results. -/
inductive Outcome
  | Accepted (p : String)
  | NoneAccepted
deriving DecidableEq

/-- One iteration of the while loop of IRV.results: tally, pick the most
prominent proposal, accept it when it passes, otherwise discard the least
prominent proposals and stop when the round's surviving stats hold no
positive count. None marks an aborting run (IndexError / KeyError /
ValueError). -/
def roundStep (tn td : ℕ) (entries : List Ballot) :
    Option (Outcome ⊕ List Ballot) := do
  let stats ← round_stats entries
  let leader ← find_most_prominent stats
  if passes tn td entries.length leader.2 then
    pure (Sum.inl (Outcome.Accepted leader.1))
  else
    let pr := find_least_prominent stats
    let entries2 := discard pr.2 entries
    if pr.1.countP (fun p => decide (0 < p.2)) = 0 then
      pure (Sum.inl Outcome.NoneAccepted)
    else
      pure (Sum.inr entries2)

/-- Result of running the election loop with a fuel bound on the number of
rounds: a terminal report, an aborting run, or fuel exhausted first. -/
inductive RunResult
  | done (o : Outcome)
  | crashed
  | outOfFuel
deriving DecidableEq

/-- The while loop of IRV.results, running at most `fuel` rounds. -/
def runIRV (tn td : ℕ) : ℕ → List Ballot → RunResult
  | 0, _ => .outOfFuel
  | fuel + 1, entries =>
    match roundStep tn td entries with
    | none => .crashed
    | some (.inl o) => .done o
    | some (.inr entries2) => runIRV tn td fuel entries2

/-- IRV.results: validate participation (aborting the run on failure),
then run the election loop. -/
def results (tn td ev pn pd fuel : ℕ) (box : BallotBox) :
    Except BoxError RunResult :=
  match box.validate_participation ev pn pd with
  | some e => .error e
  | none => .ok (runIRV tn td fuel box.entries)

/-- Whether a ballot's first favoured proposal is p. -/
def headIs (p : String) (b : Ballot) : Bool :=
  b.in_favour.head? == some p

/-- The number of ballots currently placing proposal p first. -/
def cnt (entries : List Ballot) (p : String) : ℕ :=
  entries.countP (headIs p)

/-- The number of proposals of props still favoured by some ballot. -/
def live (props : List String) (entries : List Ballot) : ℕ :=
  (props.filter (fun p => decide (∃ b ∈ entries, p ∈ b.in_favour))).length

/-- The invariant the election loop maintains: a non-empty box whose
ballots were all cast against the same non-empty duplicate-free proposal
tuple, with duplicate-free favour lists drawn from that tuple. -/
def GoodBox (props : List String) (entries : List Ballot) : Prop :=
  entries ≠ [] ∧ props ≠ [] ∧ props.Nodup ∧
    (∀ b ∈ entries, b.proposals = props) ∧
    ∀ b ∈ entries, b.in_favour.Nodup ∧ ∀ x ∈ b.in_favour, x ∈ props

/- Concrete inputs used by individual claims. -/

/-- Scenario A: the four favour orders of the specification over
proposals p1, p2, p3. -/
def entriesA : List Ballot :=
  [ ⟨["p1", "p2", "p3"], ⟨some ["p1", "p3", "p2"], none⟩⟩,
    ⟨["p1", "p2", "p3"], ⟨some ["p1", "p2"], some ["p3"]⟩⟩,
    ⟨["p1", "p2", "p3"], ⟨some ["p2"], some ["p1", "p3"]⟩⟩,
    ⟨["p1", "p2", "p3"], ⟨some ["p3", "p2", "p1"], none⟩⟩ ]

/-- Scenario B: four ballots entirely against every proposal. -/
def entriesB : List Ballot :=
  [ ⟨["p1", "p2", "p3"], ⟨none, some ["p1", "p2", "p3"]⟩⟩,
    ⟨["p1", "p2", "p3"], ⟨none, some ["p1", "p2", "p3"]⟩⟩,
    ⟨["p1", "p2", "p3"], ⟨none, some ["p1", "p2", "p3"]⟩⟩,
    ⟨["p1", "p2", "p3"], ⟨none, some ["p1", "p2", "p3"]⟩⟩ ]

/-- A single-proposal election in which round one eliminates the lone
proposal and only round two stops: one favouring ballot, three against. -/
def entriesT : List Ballot :=
  [ ⟨["p1"], ⟨some ["p1"], none⟩⟩,
    ⟨["p1"], ⟨none, some ["p1"]⟩⟩,
    ⟨["p1"], ⟨none, some ["p1"]⟩⟩,
    ⟨["p1"], ⟨none, some ["p1"]⟩⟩ ]

/-- Four valid ballots cast against an empty proposal tuple. -/
def entriesE : List Ballot :=
  [ ⟨[], ⟨none, none⟩⟩, ⟨[], ⟨none, none⟩⟩, ⟨[], ⟨none, none⟩⟩, ⟨[], ⟨none, none⟩⟩ ]

/-- A valid box whose ballots reference the same non-empty proposal
tuple, used for the termination and safety witnesses. -/
def entriesW6 : List Ballot :=
  [ ⟨["p1", "p2"], ⟨some ["p1", "p2"], none⟩⟩,
    ⟨["p1", "p2"], ⟨some ["p2", "p1"], none⟩⟩,
    ⟨["p1", "p2"], ⟨some ["p2"], some ["p1"]⟩⟩,
    ⟨["p1", "p2"], ⟨none, some ["p1", "p2"]⟩⟩ ]

/-- A box of three trivial single-proposal ballots. -/
def box3 : BallotBox :=
  ⟨[ ⟨["p1"], ⟨some ["p1"], none⟩⟩,
     ⟨["p1"], ⟨some ["p1"], none⟩⟩,
     ⟨["p1"], ⟨some ["p1"], none⟩⟩ ], 1⟩

/-- A box of four trivial single-proposal ballots. -/
def box4 : BallotBox :=
  ⟨[ ⟨["p1"], ⟨some ["p1"], none⟩⟩,
     ⟨["p1"], ⟨some ["p1"], none⟩⟩,
     ⟨["p1"], ⟨some ["p1"], none⟩⟩,
     ⟨["p1"], ⟨some ["p1"], none⟩⟩ ], 1⟩

/-- A three-proposal ballot, first content of the mismatch box. -/
def ballotX : Ballot := ⟨["p1", "p2", "p3"], ⟨some ["p1"], none⟩⟩

/-- A three-proposal ballot, second content of the mismatch box. -/
def ballotY : Ballot := ⟨["p1", "p2", "p3"], ⟨some ["p2"], none⟩⟩

/-- A one-proposal ballot, rejected by the mismatch box. -/
def ballotZ : Ballot := ⟨["p1"], ⟨some ["p1"], none⟩⟩

/-- The box holding ballotX and ballotY, of recorded size 3. -/
def boxXY : BallotBox := ⟨[ballotX, ballotY], 3⟩

/-! Helper lemmas. -/

/-- The ceiling division used by the embedding agrees with the rational
ceiling formula of the specification. -/
lemma requiredVotes_eq_ceil (tn td n : ℕ) (h : 0 < td) :
    requiredVotes tn td n = Nat.ceil ((n : ℚ) * ((tn : ℚ) / (td : ℚ))) := by
  have hd : (0 : ℚ) < (td : ℚ) := by exact_mod_cast h
  have hq : (n : ℚ) * ((tn : ℚ) / (td : ℚ)) = ((n * tn : ℕ) : ℚ) / (td : ℚ) := by
    push_cast
    ring
  have F1 : n * tn ≤ ((n * tn + td - 1) / td) * td := by
    have h1 := Nat.div_add_mod (n * tn + td - 1) td
    have h2 := Nat.mod_lt (n * tn + td - 1) h
    have h3 : td * ((n * tn + td - 1) / td) = ((n * tn + td - 1) / td) * td :=
      Nat.mul_comm _ _
    omega
  have F2 : ∀ m : ℕ, n * tn ≤ m * td → (n * tn + td - 1) / td ≤ m := by
    intro m hm
    have h3 : n * tn + td - 1 ≤ (td - 1) + m * td := by omega
    have h4 : (n * tn + td - 1) / td ≤ ((td - 1) + m * td) / td :=
      Nat.div_le_div_right h3
    have h5 : ((td - 1) + m * td) / td = (td - 1) / td + m :=
      Nat.add_mul_div_right _ _ h
    have h6 : (td - 1) / td = 0 := Nat.div_eq_of_lt (by omega)
    omega
  unfold requiredVotes
  set C := Nat.ceil ((n : ℚ) * ((tn : ℚ) / (td : ℚ))) with hC
  apply le_antisymm
  · apply F2
    have hle : (n : ℚ) * ((tn : ℚ) / (td : ℚ)) ≤ (C : ℚ) := Nat.le_ceil _
    rw [hq, div_le_iff₀ hd] at hle
    exact_mod_cast hle
  · rw [hC, Nat.ceil_le, hq, div_le_iff₀ hd]
    exact_mod_cast F1

/-- findUnknown returns none exactly when every vote names a proposal of
the election. -/
lemma findUnknown_eq_none_iff (ps l : List String) :
    findUnknown ps l = none ↔ ∀ x ∈ l, x ∈ ps := by
  induction l with
  | nil => simp [findUnknown]
  | cons x xs ih =>
    by_cases hx : x ∈ ps
    · simp [findUnknown, hx, ih]
    · simp [findUnknown, hx]

/-- A vote reported by findUnknown is a vote outside the proposal set. -/
lemma findUnknown_mem (ps l : List String) (p : String)
    (h : findUnknown ps l = some p) : p ∈ l ∧ p ∉ ps := by
  induction l with
  | nil => simp [findUnknown] at h
  | cons x xs ih =>
    by_cases hx : x ∈ ps
    · rw [findUnknown, if_pos hx] at h
      have := ih h
      exact ⟨List.mem_cons_of_mem _ this.1, this.2⟩
    · rw [findUnknown, if_neg hx] at h
      have hxp : x = p := by injection h
      subst hxp
      exact ⟨List.mem_cons_self _ _, hx⟩

/-- Characterization of a passing Ballot.validate. -/
lemma validate_ok_iff (b : Ballot) :
    b.validate = .ok () ↔
      (b.all_votes.Nodup ∧ ∀ x ∈ b.all_votes, x ∈ b.proposals) := by
  unfold Ballot.validate
  by_cases hnd : b.all_votes.Nodup
  · rw [if_neg (not_not_intro hnd)]
    cases hfu : findUnknown b.proposals b.all_votes with
    | none =>
      rw [findUnknown_eq_none_iff] at hfu
      exact iff_of_true rfl ⟨hnd, hfu⟩
    | some p =>
      have hm := findUnknown_mem _ _ _ hfu
      refine iff_of_false (by simp) ?_
      intro h
      exact absurd (h.2 p hm.1) hm.2
  · rw [if_pos hnd]
    exact iff_of_false (by simp) (fun h => absurd h.1 hnd)

/-- Characterization of a DuplicateVoteError from Ballot.validate. -/
lemma validate_dup_iff (b : Ballot) :
    b.validate = .error .DuplicateVoteError ↔ ¬ b.all_votes.Nodup := by
  unfold Ballot.validate
  by_cases hnd : b.all_votes.Nodup
  · rw [if_neg (not_not_intro hnd)]
    cases hfu : findUnknown b.proposals b.all_votes with
    | none => exact iff_of_false (by simp) (not_not_intro hnd)
    | some p => exact iff_of_false (by simp) (not_not_intro hnd)
  · rw [if_pos hnd]
    exact iff_of_true rfl hnd

/-- Characterization of an UnknownProposalError from Ballot.validate. -/
lemma validate_unknown_iff (b : Ballot) :
    (∃ p, b.validate = .error (.UnknownProposalError p)) ↔
      (b.all_votes.Nodup ∧ ∃ x ∈ b.all_votes, x ∉ b.proposals) := by
  unfold Ballot.validate
  by_cases hnd : b.all_votes.Nodup
  · rw [if_neg (not_not_intro hnd)]
    cases hfu : findUnknown b.proposals b.all_votes with
    | none =>
      rw [findUnknown_eq_none_iff] at hfu
      refine iff_of_false ?_ ?_
      · rintro ⟨p, hp⟩
        simp at hp
      · rintro ⟨_, x, hx, hxps⟩
        exact absurd (hfu x hx) hxps
    | some p =>
      have hm := findUnknown_mem _ _ _ hfu
      exact iff_of_true ⟨p, rfl⟩ ⟨hnd, p, hm.1, hm.2⟩
  · rw [if_pos hnd]
    refine iff_of_false ?_ (fun h => absurd h.1 hnd)
    rintro ⟨p, hp⟩
    simp at hp

/-- Constructing a ballot succeeds exactly when validate passes. -/
lemma mkBallot_ok_iff (ps : List String) (v : Votes) :
    (∃ b, mkBallot ps v = .ok b) ↔ (Ballot.mk ps v).validate = .ok () := by
  unfold mkBallot
  cases hv : (Ballot.mk ps v).validate with
  | ok u =>
    cases u
    exact iff_of_true ⟨_, rfl⟩ rfl
  | error e =>
    refine iff_of_false ?_ (by simp)
    rintro ⟨b, hb⟩
    exact Except.noConfusion hb

/-- Constructing a ballot reports exactly the validate failure. -/
lemma mkBallot_error_iff (ps : List String) (v : Votes) (e : VoteError) :
    mkBallot ps v = .error e ↔ (Ballot.mk ps v).validate = .error e := by
  unfold mkBallot
  split
  · next u heq => exact iff_of_false (by simp) (by simp [heq])
  · next e2 heq =>
      rw [heq]
      simp only [Except.error.injEq]

/-- C7: Ballot construction succeeds exactly when the combined
against-then-favour vote list has no repeated identifier and every
identifier belongs to the proposal set; a repeat yields
DuplicateVoteError (checked first), an unknown identifier yields
UnknownProposalError, and the two concrete rejection scenarios behave as
stated. -/
theorem ballot_construction_iff :
    (∀ ps v, (∃ b, mkBallot ps v = .ok b) ↔
      ((Ballot.mk ps v).all_votes.Nodup ∧
        ∀ x ∈ (Ballot.mk ps v).all_votes, x ∈ ps))
    ∧ (∀ ps v, mkBallot ps v = .error .DuplicateVoteError ↔
        ¬ (Ballot.mk ps v).all_votes.Nodup)
    ∧ (∀ ps v, (∃ p, mkBallot ps v = .error (.UnknownProposalError p)) ↔
        ((Ballot.mk ps v).all_votes.Nodup ∧
          ∃ x ∈ (Ballot.mk ps v).all_votes, x ∉ ps))
    ∧ mkBallot ["p1", "p2", "p3"] ⟨some ["p1", "p1"], none⟩ =
        .error .DuplicateVoteError
    ∧ mkBallot ["p1", "p2", "p3"] ⟨some ["p9"], none⟩ =
        .error (.UnknownProposalError "p9") := by
  refine ⟨?_, ?_, ?_, by decide, by decide⟩
  · intro ps v
    exact (mkBallot_ok_iff ps v).trans (validate_ok_iff _)
  · intro ps v
    exact (mkBallot_error_iff ps v _).trans (validate_dup_iff _)
  · intro ps v
    constructor
    · rintro ⟨p, hp⟩
      rw [mkBallot_error_iff] at hp
      exact (validate_unknown_iff _).1 ⟨p, hp⟩
    · intro h
      obtain ⟨p, hp⟩ := (validate_unknown_iff (Ballot.mk ps v)).2 h
      exact ⟨p, (mkBallot_error_iff ps v _).2 hp⟩

/-- C9: participation validation fails exactly when the box holds fewer
ballots than the ceiling of eligible voters times the participation
threshold; with the source constants 5 and 3/4 a box of 3 ballots fails
(the required count is ceil(3.75) = 4) and a box of 4 ballots passes. -/
theorem participation_validation_iff :
    (∀ ev pn pd (box : BallotBox), 0 < pd →
        (box.validate_participation ev pn pd =
            some .InsufficientParticipationError ↔
          box.entries.length < Nat.ceil ((ev : ℚ) * ((pn : ℚ) / (pd : ℚ)))))
    ∧ box3.validate_participation ELIGIBLE_VOTERS 3 4 =
        some .InsufficientParticipationError
    ∧ Nat.ceil ((5 : ℚ) * (3 / 4)) = 4
    ∧ box4.validate_participation ELIGIBLE_VOTERS 3 4 = none := by
  refine ⟨?_, by decide, ?_, by decide⟩
  · intro ev pn pd box hpd
    unfold BallotBox.validate_participation
    rw [← requiredVotes_eq_ceil _ _ _ hpd]
    by_cases hlt : box.entries.length < requiredVotes pn pd ev
    · simp [hlt]
    · simp [hlt]
  · rw [Nat.ceil_eq_iff (by norm_num)]
    norm_num

/-- C9 witness: the participation criterion instantiated at the source
constants and the three-ballot box. -/
theorem participation_validation_iff_witness :
    box3.validate_participation ELIGIBLE_VOTERS 3 4 =
        some .InsufficientParticipationError ↔
      box3.entries.length < Nat.ceil ((ELIGIBLE_VOTERS : ℚ) * ((3 : ℚ) / (4 : ℚ))) :=
  participation_validation_iff.1 ELIGIBLE_VOTERS 3 4 box3 (by decide)

/-- C1: on the four validated scenario-A ballots with eligibility
threshold 2/3, round one tallies p1 to 2 and p2, p3 to 1 each, the
required count is ceil(4 * 2/3) = 3 so the leader p1 does not pass, the
minimum set p2, p3 is eliminated, and round two tallies p1 to 3 (with the
eliminated proposals kept at 0) and accepts p1. -/
theorem scenarioA_trace :
    (∀ b ∈ entriesA, b.Valid)
    ∧ entriesA.length = 4
    ∧ round_stats entriesA = some [("p1", 2), ("p2", 1), ("p3", 1)]
    ∧ Nat.ceil ((4 : ℚ) * (2 / 3)) = 3
    ∧ requiredVotes 2 3 entriesA.length = 3
    ∧ find_most_prominent [("p1", 2), ("p2", 1), ("p3", 1)] = some ("p1", 2)
    ∧ passes 2 3 entriesA.length 2 = false
    ∧ (find_least_prominent [("p1", 2), ("p2", 1), ("p3", 1)]).2 = ["p2", "p3"]
    ∧ roundStep 2 3 entriesA = some (.inr (discard ["p2", "p3"] entriesA))
    ∧ round_stats (discard ["p2", "p3"] entriesA) =
        some [("p1", 3), ("p2", 0), ("p3", 0)]
    ∧ runIRV 2 3 2 entriesA = .done (.Accepted "p1") := by
  refine ⟨by decide, by decide, by decide, ?_, by decide, by decide, by decide,
    by decide, by decide, by decide, by decide⟩
  rw [Nat.ceil_eq_iff (by norm_num)]
  norm_num

/-- C5: in a round whose tally is all zero and whose leader does not
pass, the engine reports that no proposal was accepted and stops; in
particular the all-against scenario-B box tallies every proposal to zero
in round one and terminates immediately with NoneAccepted under the
source constants. -/
theorem exhaustion_reports_none :
    (∀ tn td entries stats leader,
        round_stats entries = some stats →
        (∀ q ∈ stats, q.2 = 0) →
        find_most_prominent stats = some leader →
        passes tn td entries.length leader.2 = false →
        roundStep tn td entries = some (.inl .NoneAccepted))
    ∧ (∀ b ∈ entriesB, b.Valid)
    ∧ round_stats entriesB = some [("p1", 0), ("p2", 0), ("p3", 0)]
    ∧ runIRV 1 3 1 entriesB = .done .NoneAccepted := by
  refine ⟨?_, by decide, by decide, by decide⟩
  intro tn td entries stats leader hs hz hl hnp
  have hpos : stats.filter (fun p => p.2 != 0) = [] := by
    rw [List.filter_eq_nil_iff]
    intro a ha
    simp [hz a ha]
  simp [roundStep, hs, hl, hnp, find_least_prominent, hpos]

/-- C5 witness: the exhaustion rule applied to the scenario-B box. -/
theorem exhaustion_reports_none_witness :
    roundStep 1 3 entriesB = some (.inl .NoneAccepted) :=
  exhaustion_reports_none.1 1 3 entriesB [("p1", 0), ("p2", 0), ("p3", 0)]
    ("p1", 0) (by decide) (by decide) (by decide) (by decide)

/-- Adding to a non-empty box whose recorded size differs from the new
ballot's proposal count rejects the ballot and returns the box unchanged. -/
lemma addBallot_mismatch (box : BallotBox) (b : Ballot) (hne : box.entries ≠ [])
    (hsz : b.proposals.length ≠ box.size) :
    box.addBallot b = (box, some .CapacityMismatchError) := by
  unfold BallotBox.addBallot
  have h0 : ¬(box.entries.length = 0) := by
    simpa [List.length_eq_zero] using hne
  simp [h0, hsz]

/-- Adding to a non-empty box whose recorded size matches the new
ballot's proposal count appends the ballot. -/
lemma addBallot_success (box : BallotBox) (b : Ballot) (hne : box.entries ≠ [])
    (hsz : b.proposals.length = box.size) :
    box.addBallot b = (⟨box.entries ++ [b], box.size⟩, none) := by
  unfold BallotBox.addBallot
  have h0 : ¬(box.entries.length = 0) := by
    simpa [List.length_eq_zero] using hne
  simp [h0, hsz]

/-- addBallots keeps a non-empty box non-empty and never changes its
recorded size. -/
lemma addBallots_preserve (bs : List Ballot) : ∀ (box box' : BallotBox),
    box.entries ≠ [] → box.addBallots bs = .ok box' →
    box'.entries ≠ [] ∧ box'.size = box.size := by
  induction bs with
  | nil =>
    intro box box' hne h
    unfold BallotBox.addBallots at h
    injection h with h2
    subst h2
    exact ⟨hne, rfl⟩
  | cons b bs ih =>
    intro box box' hne h
    unfold BallotBox.addBallots at h
    by_cases hsz : b.proposals.length = box.size
    · rw [addBallot_success box b hne hsz] at h
      have h2 := ih ⟨box.entries ++ [b], box.size⟩ box' (by simp) h
      exact ⟨h2.1, h2.2⟩
    · rw [addBallot_mismatch box b hne hsz] at h
      exact absurd h (by simp)

/-- C8: a box built by a first addition followed by further accepted
additions rejects any ballot whose proposal-set cardinality differs from
the first ballot's, reporting CapacityMismatchError and leaving the
entries exactly as they were. -/
theorem capacity_mismatch_rejected (b0 b : Ballot) (bs : List Ballot)
    (box : BallotBox)
    (hbox : BallotBox.empty.addBallots (b0 :: bs) = .ok box)
    (hne : b.proposals.length ≠ b0.proposals.length) :
    box.addBallot b = (box, some .CapacityMismatchError) ∧
      (box.addBallot b).1.entries = box.entries := by
  have h1 : BallotBox.empty.addBallot b0 = (⟨[b0], b0.proposals.length⟩, none) := by
    unfold BallotBox.addBallot BallotBox.empty
    simp
  unfold BallotBox.addBallots at hbox
  rw [h1] at hbox
  have h3 := addBallots_preserve bs ⟨[b0], b0.proposals.length⟩ box (by simp) hbox
  have h4 : box.addBallot b = (box, some .CapacityMismatchError) :=
    addBallot_mismatch box b h3.1 (by rw [h3.2]; exact hne)
  exact ⟨h4, by rw [h4]⟩

/-- C8 witness: the two-ballot box of size three rejects a one-proposal
ballot unchanged. -/
theorem capacity_mismatch_rejected_witness :
    boxXY.addBallot ballotZ = (boxXY, some .CapacityMismatchError) ∧
      (boxXY.addBallot ballotZ).1.entries = boxXY.entries :=
  capacity_mismatch_rejected ballotX ballotZ [ballotY] boxXY
    (by decide) (by decide)


/-- The Python max fold returns the first item attaining the maximum
value. -/
lemma argmax_fold (xs : List (String × ℕ)) : ∀ (x : String × ℕ),
    (xs.foldl (fun best y => if best.2 < y.2 then y else best) x = x ∧
      ∀ y ∈ xs, y.2 ≤ x.2) ∨
    (∃ pre y post, xs = pre ++ y :: post ∧
      xs.foldl (fun best y => if best.2 < y.2 then y else best) x = y ∧
      x.2 < y.2 ∧ (∀ z ∈ pre, z.2 < y.2) ∧ (∀ z ∈ post, z.2 ≤ y.2)) := by
  induction xs with
  | nil =>
    intro x
    left
    exact ⟨rfl, by simp⟩
  | cons z zs ih =>
    intro x
    by_cases hz : x.2 < z.2
    · have step : List.foldl (fun best y => if best.2 < y.2 then y else best) x (z :: zs) =
          List.foldl (fun best y => if best.2 < y.2 then y else best) z zs := by
        show List.foldl (fun best y => if best.2 < y.2 then y else best)
            (if x.2 < z.2 then z else x) zs = _
        rw [if_pos hz]
      rcases ih z with ⟨hfold, hall⟩ | ⟨pre, y, post, heq, hfold, hlt, hpre, hpost⟩
      · right
        exact ⟨[], z, zs, rfl, by rw [step]; exact hfold, hz, by simp, hall⟩
      · right
        refine ⟨z :: pre, y, post, by rw [heq, List.cons_append],
          by rw [step]; exact hfold, lt_trans hz hlt, ?_, hpost⟩
        intro w hw
        rcases List.mem_cons.mp hw with h1 | h2
        · rw [h1]; exact hlt
        · exact hpre w h2
    · have step : List.foldl (fun best y => if best.2 < y.2 then y else best) x (z :: zs) =
          List.foldl (fun best y => if best.2 < y.2 then y else best) x zs := by
        show List.foldl (fun best y => if best.2 < y.2 then y else best)
            (if x.2 < z.2 then z else x) zs = _
        rw [if_neg hz]
      push_neg at hz
      rcases ih x with ⟨hfold, hall⟩ | ⟨pre, y, post, heq, hfold, hlt, hpre, hpost⟩
      · left
        refine ⟨by rw [step]; exact hfold, ?_⟩
        intro w hw
        rcases List.mem_cons.mp hw with h1 | h2
        · rw [h1]; exact hz
        · exact hall w h2
      · right
        refine ⟨z :: pre, y, post, by rw [heq, List.cons_append],
          by rw [step]; exact hfold, hlt, ?_, hpost⟩
        intro w hw
        rcases List.mem_cons.mp hw with h1 | h2
        · rw [h1]; exact lt_of_le_of_lt hz hlt
        · exact hpre w h2

/-- find_most_prominent returns the first maximum-count entry. -/
lemma find_most_prominent_spec (stats : List (String × ℕ)) (l : String × ℕ)
    (h : find_most_prominent stats = some l) :
    ∃ pre post, stats = pre ++ l :: post ∧ (∀ z ∈ pre, z.2 < l.2) ∧
      ∀ z ∈ stats, z.2 ≤ l.2 := by
  cases stats with
  | nil => simp [find_most_prominent] at h
  | cons x xs =>
    have hfold : List.foldl (fun best y => if best.2 < y.2 then y else best) x xs = l := by
      simpa [find_most_prominent] using h
    rcases argmax_fold xs x with ⟨hf, hall⟩ | ⟨pre, y, post, heq, hf, hlt, hpre, hpost⟩
    · have hx : x = l := by rw [← hfold, hf]
      refine ⟨[], xs, by rw [hx, List.nil_append], by simp, ?_⟩
      intro z hz
      rcases List.mem_cons.mp hz with h1 | h2
      · rw [h1, ← hx]
      · rw [← hx]; exact hall z h2
    · have hy : y = l := by rw [← hfold, hf]
      subst hy
      refine ⟨x :: pre, post, by rw [heq, List.cons_append], ?_, ?_⟩
      · intro z hz
        rcases List.mem_cons.mp hz with h1 | h2
        · rw [h1]; exact hlt
        · exact hpre z h2
      · intro z hz
        rcases List.mem_cons.mp hz with h1 | h2
        · rw [h1]; exact le_of_lt hlt
        · rw [heq] at h2
          rcases List.mem_append.mp h2 with h3 | h4
          · exact le_of_lt (hpre z h3)
          · rcases List.mem_cons.mp h4 with h5 | h6
            · rw [h5]
            · exact hpost z h6

/-- discard never changes the number of ballots. -/
lemma discard_length (ks : List String) : ∀ es, (discard ks es).length = es.length := by
  induction ks with
  | nil => intro es; rfl
  | cons k ks ih =>
    intro es
    have step : discard (k :: ks) es = discard ks (es.map (discardBallot k)) := rfl
    rw [step, ih, List.length_map]

/-- C2: in any round, given the round tally and its leader, the leader is
a maximum-count entry preceded only by strictly smaller counts (Python max
keeps the first maximum in iteration order), the round accepts exactly
that leader and stops if and only if its count reaches
ceil(activeBallotCount * eligibilityThreshold), and discarding never
changes the number of ballots in the box, so activeBallotCount is the
same in every round. -/
theorem acceptance_iff_required (tn td : ℕ) (entries : List Ballot)
    (stats : List (String × ℕ)) (leader : String × ℕ) (htd : 0 < td)
    (hs : round_stats entries = some stats)
    (hl : find_most_prominent stats = some leader) :
    (∃ pre post, stats = pre ++ leader :: post ∧ (∀ z ∈ pre, z.2 < leader.2) ∧
      ∀ z ∈ stats, z.2 ≤ leader.2)
    ∧ (roundStep tn td entries = some (.inl (.Accepted leader.1)) ↔
        Nat.ceil ((entries.length : ℚ) * ((tn : ℚ) / (td : ℚ))) ≤ leader.2)
    ∧ (∀ ks, (discard ks entries).length = entries.length) := by
  refine ⟨find_most_prominent_spec stats leader hl, ?_, fun ks => discard_length ks entries⟩
  rw [← requiredVotes_eq_ceil _ _ _ htd]
  cases hp : passes tn td entries.length leader.2 with
  | true =>
    have hreq : requiredVotes tn td entries.length ≤ leader.2 := by
      have := of_decide_eq_true hp
      exact this
    simp [roundStep, hs, hl, hp, hreq]
  | false =>
    have hreq : ¬ requiredVotes tn td entries.length ≤ leader.2 := by
      have := of_decide_eq_false hp
      exact this
    by_cases hc : (find_least_prominent stats).1.countP (fun p => decide (0 < p.2)) = 0
    · simp [roundStep, hs, hl, hp, hc, hreq]
    · simp [roundStep, hs, hl, hp, hc, hreq]

/-- C2 witness: the acceptance criterion instantiated at the scenario-A
box with threshold 2/3, whose round-one leader is p1 with count 2. -/
theorem acceptance_iff_required_witness :
    (∃ pre post, ([("p1", 2), ("p2", 1), ("p3", 1)] : List (String × ℕ)) =
        pre ++ ("p1", 2) :: post ∧ (∀ z ∈ pre, z.2 < 2) ∧
        ∀ z ∈ ([("p1", 2), ("p2", 1), ("p3", 1)] : List (String × ℕ)), z.2 ≤ 2)
    ∧ (roundStep 2 3 entriesA = some (.inl (.Accepted "p1")) ↔
        Nat.ceil ((entriesA.length : ℚ) * (((2 : ℕ) : ℚ) / ((3 : ℕ) : ℚ))) ≤ 2)
    ∧ (∀ ks, (discard ks entriesA).length = entriesA.length) :=
  acceptance_iff_required 2 3 entriesA [("p1", 2), ("p2", 1), ("p3", 1)] ("p1", 2)
    (by decide) (by decide) (by decide)


/-- The min fold is a lower bound. -/
lemma minfold_le (xs : List (String × ℕ)) : ∀ (a : ℕ),
    xs.foldl (fun m y => min m y.2) a ≤ a ∧
      ∀ y ∈ xs, xs.foldl (fun m y => min m y.2) a ≤ y.2 := by
  induction xs with
  | nil =>
    intro a
    exact ⟨le_refl a, by simp⟩
  | cons z zs ih =>
    intro a
    have step : List.foldl (fun m y => min m y.2) a (z :: zs) =
        List.foldl (fun m y => min m y.2) (min a z.2) zs := rfl
    constructor
    · rw [step]
      exact le_trans (ih (min a z.2)).1 (min_le_left _ _)
    · intro y hy
      rcases List.mem_cons.mp hy with h1 | h2
      · rw [h1, step]
        exact le_trans (ih (min a z.2)).1 (min_le_right _ _)
      · rw [step]
        exact (ih (min a z.2)).2 y h2

/-- The min fold value is attained. -/
lemma minfold_attained (xs : List (String × ℕ)) : ∀ (a : ℕ),
    xs.foldl (fun m y => min m y.2) a = a ∨
      ∃ y ∈ xs, xs.foldl (fun m y => min m y.2) a = y.2 := by
  induction xs with
  | nil =>
    intro a
    exact Or.inl rfl
  | cons z zs ih =>
    intro a
    have step : List.foldl (fun m y => min m y.2) a (z :: zs) =
        List.foldl (fun m y => min m y.2) (min a z.2) zs := rfl
    rcases ih (min a z.2) with h | ⟨y, hy, h⟩
    · rcases le_total a z.2 with hle | hle
      · left
        rw [step, h, min_eq_left hle]
      · right
        exact ⟨z, List.mem_cons_self _ _, by rw [step, h, min_eq_right hle]⟩
    · right
      exact ⟨y, List.mem_cons_of_mem _ hy, by rw [step, h]⟩

/-- minVal is the least value of a non-empty association list, and is
attained. -/
lemma minVal_spec (x : String × ℕ) (xs : List (String × ℕ)) :
    (∀ y ∈ x :: xs, minVal (x :: xs) ≤ y.2) ∧
      ∃ y ∈ x :: xs, y.2 = minVal (x :: xs) := by
  have hle := minfold_le xs x.2
  have hat := minfold_attained xs x.2
  constructor
  · intro y hy
    rcases List.mem_cons.mp hy with h1 | h2
    · rw [h1]
      exact hle.1
    · exact hle.2 y h2
  · rcases hat with h | ⟨y, hy, h⟩
    · exact ⟨x, List.mem_cons_self _ _, h.symm⟩
    · exact ⟨y, List.mem_cons_of_mem _ hy, h.symm⟩

/-- Membership in the least-prominent key list, characterized over the
original stats. -/
lemma find_least_prominent_mem (stats : List (String × ℕ)) (p : String) :
    p ∈ (find_least_prominent stats).2 ↔
      ∃ c, (p, c) ∈ stats ∧ c ≠ 0 ∧ ∀ q ∈ stats, q.2 ≠ 0 → c ≤ q.2 := by
  unfold find_least_prominent
  constructor
  · intro hp
    obtain ⟨q, hq, hq1⟩ := List.mem_map.mp hp
    obtain ⟨hqpos, hqmin⟩ := List.mem_filter.mp hq
    obtain ⟨hqstats, hqne⟩ := List.mem_filter.mp hqpos
    have hqne2 : q.2 ≠ 0 := by simpa using hqne
    have hqmin2 : q.2 = minVal (stats.filter (fun r => r.2 != 0)) := by
      simpa using hqmin
    refine ⟨q.2, ?_, hqne2, ?_⟩
    · rw [← hq1]
      exact hqstats
    · intro r hr hrne
      have hrpos : r ∈ stats.filter (fun r => r.2 != 0) :=
        List.mem_filter.mpr ⟨hr, by simpa using hrne⟩
      cases hpos : stats.filter (fun r => r.2 != 0) with
      | nil => rw [hpos] at hrpos; cases hrpos
      | cons x xs =>
        rw [hpos] at hrpos hqmin2
        rw [hqmin2]
        exact (minVal_spec x xs).1 r hrpos
  · rintro ⟨c, hc, hcne, hcmin⟩
    have hcpos : (p, c) ∈ stats.filter (fun r => r.2 != 0) :=
      List.mem_filter.mpr ⟨hc, by simpa using hcne⟩
    have hcval : c = minVal (stats.filter (fun r => r.2 != 0)) := by
      cases hpos : stats.filter (fun r => r.2 != 0) with
      | nil => rw [hpos] at hcpos; cases hcpos
      | cons x xs =>
        rw [hpos] at hcpos
        apply le_antisymm
        · obtain ⟨y, hy, hyv⟩ := (minVal_spec x xs).2
          rw [← hyv]
          have hy2 : y ∈ stats.filter (fun r => r.2 != 0) := by rw [hpos]; exact hy
          obtain ⟨hystats, hyne⟩ := List.mem_filter.mp hy2
          exact hcmin y hystats (by simpa using hyne)
        · exact (minVal_spec x xs).1 (p, c) hcpos
    apply List.mem_map.mpr
    refine ⟨(p, c), List.mem_filter.mpr ⟨hcpos, ?_⟩, rfl⟩
    simpa using hcval

/-- discard is a per-ballot fold of erasures. -/
lemma discard_eq_map (ks : List String) : ∀ es, discard ks es =
    es.map (fun b => ks.foldl (fun bb p => discardBallot p bb) b) := by
  induction ks with
  | nil =>
    intro es
    have : es.map (fun b => List.foldl (fun bb p => discardBallot p bb) b []) =
        es.map id := rfl
    rw [this, List.map_id]
    rfl
  | cons k ks ih =>
    intro es
    have step : discard (k :: ks) es = discard ks (es.map (discardBallot k)) := rfl
    rw [step, ih, List.map_map]
    rfl

/-- The favour list of a discarded ballot is the erased favour list. -/
lemma in_favour_discardBallot (p : String) (b : Ballot) :
    (discardBallot p b).in_favour = b.in_favour.erase p := by
  unfold discardBallot Ballot.in_favour
  cases b.votes.in_favour with
  | none => simp
  | some l => simp

/-- The favour list after a fold of discards is the fold of erasures. -/
lemma in_favour_multi (ks : List String) : ∀ b : Ballot,
    (ks.foldl (fun bb p => discardBallot p bb) b).in_favour =
      ks.foldl (fun l p => l.erase p) b.in_favour := by
  induction ks with
  | nil => intro b; rfl
  | cons k ks ih =>
    intro b
    have step : List.foldl (fun bb p => discardBallot p bb) b (k :: ks) =
        List.foldl (fun bb p => discardBallot p bb) (discardBallot k b) ks := rfl
    rw [step, ih, in_favour_discardBallot]
    rfl

/-- A fold of erasures only removes elements. -/
lemma foldl_erase_subset (ks : List String) : ∀ l : List String,
    ks.foldl (fun l p => l.erase p) l ⊆ l := by
  induction ks with
  | nil => intro l x hx; exact hx
  | cons k ks ih =>
    intro l
    have step : List.foldl (fun l p => l.erase p) l (k :: ks) =
        List.foldl (fun l p => l.erase p) (l.erase k) ks := rfl
    rw [step]
    exact fun x hx => List.erase_subset _ _ (ih (l.erase k) hx)

/-- A fold of erasures keeps the list duplicate-free. -/
lemma foldl_erase_nodup (ks : List String) : ∀ l : List String, l.Nodup →
    (ks.foldl (fun l p => l.erase p) l).Nodup := by
  induction ks with
  | nil => intro l h; exact h
  | cons k ks ih =>
    intro l h
    exact ih (l.erase k) (h.erase k)

/-- After erasing every key of ks from a duplicate-free list, no key of
ks remains. -/
lemma foldl_erase_not_mem (ks : List String) : ∀ (l : List String), l.Nodup →
    ∀ k ∈ ks, k ∉ ks.foldl (fun l p => l.erase p) l := by
  induction ks with
  | nil => intro l _ k hk; cases hk
  | cons k0 ks ih =>
    intro l hnd k hk
    have step : List.foldl (fun l p => l.erase p) l (k0 :: ks) =
        List.foldl (fun l p => l.erase p) (l.erase k0) ks := rfl
    rw [step]
    rcases List.mem_cons.mp hk with h1 | h2
    · intro hmem
      have hsub := foldl_erase_subset ks (l.erase k0) hmem
      exact absurd h1 ((List.Nodup.mem_erase_iff hnd).mp hsub).1
    · exact ih (l.erase k0) (hnd.erase k0) k h2

/-- Discarding removes every discarded proposal from every ballot. -/
lemma discard_not_mem (ks : List String) (entries : List Ballot)
    (hnd : ∀ b ∈ entries, b.in_favour.Nodup) :
    ∀ k ∈ ks, ∀ b2 ∈ discard ks entries, k ∉ b2.in_favour := by
  intro k hk b2 hb2
  rw [discard_eq_map] at hb2
  obtain ⟨b, hb, hb2eq⟩ := List.mem_map.mp hb2
  rw [← hb2eq, in_favour_multi]
  exact foldl_erase_not_mem ks b.in_favour (hnd b hb) k hk

/-- C3: in a round with the given tally, the least-prominent keys are
exactly the proposals holding a non-zero count that is minimal among all
non-zero counts (zero-count proposals are excluded from the comparison),
and discarding them removes each from the favour list of every ballot,
wherever it occurs, so that no ballot's favour list retains an eliminated
proposal. -/
theorem elimination_minimum (entries : List Ballot) (stats : List (String × ℕ))
    (_hs : round_stats entries = some stats)
    (hnd : ∀ b ∈ entries, b.in_favour.Nodup) :
    (∀ p, p ∈ (find_least_prominent stats).2 ↔
      ∃ c, (p, c) ∈ stats ∧ c ≠ 0 ∧ ∀ q ∈ stats, q.2 ≠ 0 → c ≤ q.2)
    ∧ ∀ k ∈ (find_least_prominent stats).2,
        ∀ b ∈ discard (find_least_prominent stats).2 entries,
          k ∉ b.in_favour := by
  exact ⟨fun p => find_least_prominent_mem stats p,
    discard_not_mem (find_least_prominent stats).2 entries hnd⟩

/-- C3 witness: the elimination characterization at the scenario-A
round-one tally, whose minimum set is p2, p3. -/
theorem elimination_minimum_witness :
    (∀ p, p ∈ (find_least_prominent [("p1", 2), ("p2", 1), ("p3", 1)]).2 ↔
      ∃ c, (p, c) ∈ ([("p1", 2), ("p2", 1), ("p3", 1)] : List (String × ℕ)) ∧
        c ≠ 0 ∧
        ∀ q ∈ ([("p1", 2), ("p2", 1), ("p3", 1)] : List (String × ℕ)),
          q.2 ≠ 0 → c ≤ q.2)
    ∧ ∀ k ∈ (find_least_prominent [("p1", 2), ("p2", 1), ("p3", 1)]).2,
        ∀ b ∈ discard (find_least_prominent [("p1", 2), ("p2", 1), ("p3", 1)]).2
            entriesA,
          k ∉ b.in_favour :=
  elimination_minimum entriesA [("p1", 2), ("p2", 1), ("p3", 1)]
    (by decide) (by decide)


/-- Incrementing an existing key of a counter over duplicate-free keys. -/
lemma incr_map (f : String → ℕ) (h : String) : ∀ (props : List String),
    props.Nodup → h ∈ props →
    incr h (props.map (fun p => (p, f p))) =
      some (props.map (fun p => (p, if p = h then f p + 1 else f p))) := by
  intro props
  induction props with
  | nil =>
    intro _ hmem
    cases hmem
  | cons q qs ih =>
    intro hnd hmem
    rw [List.map_cons, List.map_cons]
    by_cases hq : q = h
    · subst hq
      have hstep : incr q ((q, f q) :: qs.map (fun p => (p, f p))) =
          some ((q, f q + 1) :: qs.map (fun p => (p, f p))) := by
        simp [incr]
      rw [hstep, if_pos rfl]
      have hq2 : q ∉ qs := (List.nodup_cons.mp hnd).1
      have hmap : qs.map (fun p => (p, if p = q then f p + 1 else f p)) =
          qs.map (fun p => (p, f p)) := by
        apply List.map_congr_left
        intro p hp
        have hpq : p ≠ q := fun hpq => hq2 (hpq ▸ hp)
        rw [if_neg hpq]
      rw [hmap]
    · have hmem2 : h ∈ qs := by
        rcases List.mem_cons.mp hmem with h1 | h2
        · exact absurd h1.symm hq
        · exact h2
      have hstep : incr h ((q, f q) :: qs.map (fun p => (p, f p))) =
          (incr h (qs.map (fun p => (p, f p)))).map (fun r => (q, f q) :: r) := by
        simp [incr, hq]
      rw [hstep, ih (List.nodup_cons.mp hnd).2 hmem2, if_neg hq]
      rfl

/-- Closed form of the counting loop of round_stats, for an arbitrary
initial counter over duplicate-free keys. -/
lemma tally_fold (props : List String) (hnd : props.Nodup) :
    ∀ (entries : List Ballot) (f : String → ℕ),
      (∀ b ∈ entries, ∀ x, b.in_favour.head? = some x → x ∈ props) →
      List.foldlM tallyBallot (props.map (fun p => (p, f p))) entries =
        some (props.map (fun p => (p, f p + entries.countP (headIs p)))) := by
  intro entries
  induction entries with
  | nil =>
    intro f _
    simp
  | cons b es ih =>
    intro f hh
    rw [List.foldlM_cons]
    cases hb : b.in_favour with
    | nil =>
      have hstep : tallyBallot (props.map (fun p => (p, f p))) b =
          some (props.map (fun p => (p, f p))) := by
        simp [tallyBallot, hb]
      rw [hstep]
      show List.foldlM tallyBallot (props.map (fun p => (p, f p))) es = _
      rw [ih f (fun b2 hb2 => hh b2 (List.mem_cons_of_mem _ hb2))]
      congr 1
      apply List.map_congr_left
      intro p hp
      have hfalse : headIs p b = false := by simp [headIs, hb]
      simp [List.countP_cons, hfalse]
    | cons x rest2 =>
      have hx : x ∈ props := hh b (List.mem_cons_self _ _) x (by rw [hb]; rfl)
      have hstep : tallyBallot (props.map (fun p => (p, f p))) b =
          incr x (props.map (fun p => (p, f p))) := by
        simp [tallyBallot, hb]
      rw [hstep, incr_map f x props hnd hx]
      show List.foldlM tallyBallot
        (props.map (fun p => (p, if p = x then f p + 1 else f p))) es = _
      rw [ih (fun p => if p = x then f p + 1 else f p)
        (fun b2 hb2 => hh b2 (List.mem_cons_of_mem _ hb2))]
      congr 1
      apply List.map_congr_left
      intro p hp
      have hcp : List.countP (headIs p) (b :: es) =
          List.countP (headIs p) es + (if p = x then 1 else 0) := by
        rw [List.countP_cons]
        rcases eq_or_ne p x with hpx | hpx
        · subst hpx
          have htrue : headIs p b = true := by simp [headIs, hb]
          rw [htrue, if_pos rfl]
          simp
        · have hfalse : headIs p b = false := by
            simp only [headIs, hb, List.head?_cons]
            simp only [beq_eq_false_iff_ne]
            exact fun hcon => hpx (by injection hcon with h2; exact h2.symm)
          rw [hfalse, if_neg hpx]
          simp
      rw [hcp]
      rcases eq_or_ne p x with hpx | hpx
      · rw [if_pos hpx, if_pos hpx]
        congr 1
        omega
      · rw [if_neg hpx, if_neg hpx]
        simp

/-- Closed form of round_stats: the counter lists the first ballot's
proposals in order, each with the number of ballots placing it first. -/
lemma round_stats_closed (b0 : Ballot) (rest : List Ballot)
    (hnd : b0.proposals.Nodup)
    (hheads : ∀ b ∈ b0 :: rest, ∀ x, b.in_favour.head? = some x →
      x ∈ b0.proposals) :
    round_stats (b0 :: rest) =
      some (b0.proposals.map (fun p => (p, cnt (b0 :: rest) p))) := by
  unfold round_stats init_counter
  have h := tally_fold b0.proposals hnd (b0 :: rest) (fun _ => 0) hheads
  simpa [cnt] using h

/-- Splitting a sum of pointwise sums. -/
lemma sum_map_add_split (l : List String) (f g : String → ℕ) :
    (l.map (fun a => f a + g a)).sum = (l.map f).sum + (l.map g).sum := by
  induction l with
  | nil => simp
  | cons a as ih =>
    simp [ih]
    omega

/-- Over duplicate-free keys, the indicator of one member sums to one. -/
lemma sum_indicator_one (x : String) : ∀ (l : List String), l.Nodup → x ∈ l →
    (l.map (fun p => if p = x then 1 else 0)).sum = 1 := by
  intro l
  induction l with
  | nil =>
    intro _ hmem
    cases hmem
  | cons a as ih =>
    intro hnd hmem
    rw [List.map_cons, List.sum_cons]
    by_cases ha : a = x
    · subst ha
      have ha2 : a ∉ as := (List.nodup_cons.mp hnd).1
      have hmap : (as.map (fun p => if p = a then 1 else 0)).sum = 0 := by
        have : as.map (fun p => if p = a then 1 else 0) = as.map (fun _ => 0) := by
          apply List.map_congr_left
          intro p hp
          have hpa : p ≠ a := fun hpa => ha2 (hpa ▸ hp)
          rw [if_neg hpa]
        rw [this]
        simp
      rw [if_pos rfl, hmap]
    · have hmem2 : x ∈ as := by
        rcases List.mem_cons.mp hmem with h1 | h2
        · exact absurd h1.symm ha
        · exact h2
      rw [if_neg ha, ih (List.nodup_cons.mp hnd).2 hmem2]

/-- The tally counts sum to the number of ballots with a non-empty
favour list. -/
lemma sum_cnt (props : List String) (hnd : props.Nodup) :
    ∀ (entries : List Ballot),
      (∀ b ∈ entries, ∀ x, b.in_favour.head? = some x → x ∈ props) →
      (props.map (fun p => cnt entries p)).sum =
        entries.countP (fun b => !b.in_favour.isEmpty) := by
  intro entries
  induction entries with
  | nil =>
    intro _
    have : props.map (fun p => cnt ([] : List Ballot) p) = props.map (fun _ => 0) := by
      apply List.map_congr_left
      intro p hp
      simp [cnt]
    rw [this]
    simp
  | cons b es ih =>
    intro hh
    have ihe := ih (fun b2 hb2 => hh b2 (List.mem_cons_of_mem _ hb2))
    cases hb : b.in_favour with
    | nil =>
      have h1 : props.map (fun p => cnt (b :: es) p) = props.map (fun p => cnt es p) := by
        apply List.map_congr_left
        intro p hp
        have hfalse : headIs p b = false := by simp [headIs, hb]
        simp [cnt, List.countP_cons, hfalse]
      rw [h1, ihe, List.countP_cons]
      simp [hb]
    | cons x rest2 =>
      have hx : x ∈ props := hh b (List.mem_cons_self _ _) x (by rw [hb]; rfl)
      have h1 : props.map (fun p => cnt (b :: es) p) =
          props.map (fun p => cnt es p + (if p = x then 1 else 0)) := by
        apply List.map_congr_left
        intro p hp
        rcases eq_or_ne p x with hpx | hpx
        · subst hpx
          have htrue : headIs p b = true := by simp [headIs, hb]
          simp [cnt, List.countP_cons, htrue]
        · have hfalse : headIs p b = false := by
            simp only [headIs, hb, List.head?_cons]
            simp only [beq_eq_false_iff_ne]
            exact fun hcon => hpx (by injection hcon with h2; exact h2.symm)
          simp [cnt, List.countP_cons, hfalse, hpx]
      rw [h1, sum_map_add_split, ihe, sum_indicator_one x props hnd hx,
        List.countP_cons]
      simp [hb]

/-- C4: for a non-empty box whose ballots' first preferences lie in the
first ballot's duplicate-free proposal tuple, the round tally lists every
proposal of that tuple (each starting from zero), maps each to exactly
the number of ballots whose current favour list is non-empty with that
proposal first, and its counts sum to exactly (hence at most) the number
of ballots with a non-empty favour list; empty-favour ballots count
nowhere. -/
theorem round_tally_exact (b0 : Ballot) (rest : List Ballot)
    (hnd : b0.proposals.Nodup)
    (hheads : ∀ b ∈ b0 :: rest, ∀ x, b.in_favour.head? = some x →
      x ∈ b0.proposals) :
    ∃ stats, round_stats (b0 :: rest) = some stats ∧
      stats.map Prod.fst = b0.proposals ∧
      (∀ p c, (p, c) ∈ stats → c = (b0 :: rest).countP (headIs p)) ∧
      (stats.map Prod.snd).sum =
        (b0 :: rest).countP (fun b => !b.in_favour.isEmpty) ∧
      (stats.map Prod.snd).sum ≤
        ((b0 :: rest).filter (fun b => !b.in_favour.isEmpty)).length := by
  refine ⟨b0.proposals.map (fun p => (p, cnt (b0 :: rest) p)),
    round_stats_closed b0 rest hnd hheads, ?_, ?_, ?_, ?_⟩
  · rw [List.map_map]
    have hcomp : (Prod.fst ∘ fun p => (p, cnt (b0 :: rest) p)) = id := rfl
    rw [hcomp, List.map_id]
  · intro p c hpc
    obtain ⟨p2, hp2, heq⟩ := List.mem_map.mp hpc
    have hp : p2 = p := congrArg Prod.fst heq
    have hc : cnt (b0 :: rest) p2 = c := congrArg Prod.snd heq
    rw [← hp, ← hc]
    rfl
  · rw [List.map_map]
    have : (Prod.snd ∘ fun p => (p, cnt (b0 :: rest) p)) = fun p => cnt (b0 :: rest) p := rfl
    rw [this]
    exact sum_cnt b0.proposals hnd (b0 :: rest) hheads
  · rw [List.map_map]
    have h1 : (Prod.snd ∘ fun p => (p, cnt (b0 :: rest) p)) = fun p => cnt (b0 :: rest) p := rfl
    rw [h1, sum_cnt b0.proposals hnd (b0 :: rest) hheads, List.countP_eq_length_filter]

/-- C4 witness: the tally characterization at the scenario-A box. -/
theorem round_tally_exact_witness :
    ∃ stats, round_stats entriesA = some stats ∧
      stats.map Prod.fst = ["p1", "p2", "p3"] ∧
      (∀ p c, (p, c) ∈ stats → c = entriesA.countP (headIs p)) ∧
      (stats.map Prod.snd).sum =
        entriesA.countP (fun b => !b.in_favour.isEmpty) ∧
      (stats.map Prod.snd).sum ≤
        (entriesA.filter (fun b => !b.in_favour.isEmpty)).length :=
  round_tally_exact ⟨["p1", "p2", "p3"], ⟨some ["p1", "p3", "p2"], none⟩⟩
    [ ⟨["p1", "p2", "p3"], ⟨some ["p1", "p2"], some ["p3"]⟩⟩,
      ⟨["p1", "p2", "p3"], ⟨some ["p2"], some ["p1", "p3"]⟩⟩,
      ⟨["p1", "p2", "p3"], ⟨some ["p3", "p2", "p1"], none⟩⟩ ]
    (by decide) (by decide)



/-- A head of a list is a member. -/
lemma mem_of_head_eq (l : List String) (x : String) (h : l.head? = some x) :
    x ∈ l := by
  cases l with
  | nil => cases h
  | cons a as =>
    have : a = x := by injection h
    rw [← this]
    exact List.mem_cons_self _ _

/-- Filtering with a pointwise-weaker predicate keeps at most as many
elements. -/
lemma length_filter_mono (P Q : String → Bool) : ∀ l : List String,
    (∀ a ∈ l, Q a = true → P a = true) →
    (l.filter Q).length ≤ (l.filter P).length := by
  intro l
  induction l with
  | nil => simp
  | cons a as ih =>
    intro hmono
    have h2 := ih (fun x hx => hmono x (List.mem_cons_of_mem _ hx))
    cases hQa : Q a
    · cases hPa : P a <;> simp [List.filter_cons, hQa, hPa] <;> omega
    · have hPa := hmono a (List.mem_cons_self _ _) hQa
      simp [List.filter_cons, hQa, hPa]
      omega

/-- Filtering with a pointwise-weaker predicate that additionally loses a
member keeps strictly fewer elements. -/
lemma length_filter_strict (P Q : String → Bool) : ∀ (l : List String),
    (∀ a ∈ l, Q a = true → P a = true) → ∀ a0 ∈ l, P a0 = true → Q a0 = false →
    (l.filter Q).length < (l.filter P).length := by
  intro l
  induction l with
  | nil =>
    intro _ a0 ha0
    cases ha0
  | cons a as ih =>
    intro hmono a0 ha0 hP hQ
    have hmono2 : ∀ x ∈ as, Q x = true → P x = true :=
      fun x hx => hmono x (List.mem_cons_of_mem _ hx)
    rcases List.mem_cons.mp ha0 with h1 | h2
    · subst h1
      have hle := length_filter_mono P Q as hmono2
      simp [List.filter_cons, hP, hQ]
      omega
    · have ihs := ih hmono2 a0 h2 hP hQ
      cases hQa : Q a
      · cases hPa : P a
        · simp [List.filter_cons, hQa, hPa]
          exact ihs
        · simp [List.filter_cons, hQa, hPa]
          omega
      · have hPa := hmono a (List.mem_cons_self _ _) hQa
        simp [List.filter_cons, hQa, hPa]
        omega

/-- The proposal tuple of a ballot is unchanged by a fold of discards. -/
lemma proposals_multi (ks : List String) : ∀ b : Ballot,
    (ks.foldl (fun bb p => discardBallot p bb) b).proposals = b.proposals := by
  induction ks with
  | nil => intro b; rfl
  | cons k ks ih =>
    intro b
    have step : List.foldl (fun bb p => discardBallot p bb) b (k :: ks) =
        List.foldl (fun bb p => discardBallot p bb) (discardBallot k b) ks := rfl
    rw [step, ih]
    rfl

/-- Discarding preserves the election-loop invariant. -/
lemma discard_goodbox (ks : List String) (props : List String)
    (entries : List Ballot) (hg : GoodBox props entries) :
    GoodBox props (discard ks entries) := by
  obtain ⟨hne, hpne, hnd, hsame, hball⟩ := hg
  rw [discard_eq_map]
  refine ⟨?_, hpne, hnd, ?_, ?_⟩
  · cases entries with
    | nil => exact absurd rfl hne
    | cons b es => simp
  · intro b2 hb2
    obtain ⟨b, hb, hbeq⟩ := List.mem_map.mp hb2
    rw [← hbeq, proposals_multi]
    exact hsame b hb
  · intro b2 hb2
    obtain ⟨b, hb, hbeq⟩ := List.mem_map.mp hb2
    rw [← hbeq, in_favour_multi]
    exact ⟨foldl_erase_nodup ks b.in_favour (hball b hb).1,
      fun x hx => (hball b hb).2 x (foldl_erase_subset ks b.in_favour hx)⟩

/-- Under the loop invariant, a round either stops with an outcome or
discards, preserving the invariant and strictly shrinking the set of
proposals still favoured by some ballot. -/
lemma roundStep_cases (tn td : ℕ) (props : List String) (entries : List Ballot)
    (hg : GoodBox props entries) :
    (∃ o, roundStep tn td entries = some (Sum.inl o)) ∨
    (∃ e2, roundStep tn td entries = some (Sum.inr e2) ∧ GoodBox props e2 ∧
      live props e2 < live props entries) := by
  obtain ⟨hne, hpne, hnd, hsame, hball⟩ := hg
  have hgAll : GoodBox props entries := ⟨hne, hpne, hnd, hsame, hball⟩
  cases hcase : entries with
  | nil => exact absurd hcase hne
  | cons b0 rest =>
  subst hcase
  have hprops : b0.proposals = props := hsame b0 (List.mem_cons_self _ _)
  have hheads : ∀ b ∈ b0 :: rest, ∀ x, b.in_favour.head? = some x →
      x ∈ b0.proposals := by
    intro b hb x hx
    rw [hprops]
    exact (hball b hb).2 x (mem_of_head_eq _ _ hx)
  have hs : round_stats (b0 :: rest) =
      some (props.map (fun p => (p, cnt (b0 :: rest) p))) := by
    have h := round_stats_closed b0 rest (by rw [hprops]; exact hnd) hheads
    rw [hprops] at h
    exact h
  set stats := props.map (fun p => (p, cnt (b0 :: rest) p)) with hstats
  have hsne : stats ≠ [] := by
    rw [hstats]
    intro hcon
    exact hpne (List.map_eq_nil_iff.mp hcon)
  obtain ⟨leader, hl⟩ : ∃ l, find_most_prominent stats = some l := by
    cases hstatscase : stats with
    | nil => exact absurd hstatscase hsne
    | cons x xs => exact ⟨_, rfl⟩
  cases hp : passes tn td (rest.length + 1) leader.2
  case true =>
    left
    exact ⟨Outcome.Accepted leader.1, by simp [roundStep, hs, hl, hp]⟩
  case false =>
  by_cases hc : (find_least_prominent stats).1.countP (fun p => decide (0 < p.2)) = 0
  · left
    exact ⟨Outcome.NoneAccepted, by simp [roundStep, hs, hl, hp, hc]⟩
  · right
    set ks := (find_least_prominent stats).2 with hks
    refine ⟨discard ks (b0 :: rest), by simp [roundStep, hs, hl, hp, hc, hks], ?_, ?_⟩
    · exact discard_goodbox ks props (b0 :: rest) hgAll
    · -- find a discarded proposal with positive count
      have hpos1 : (find_least_prominent stats).1 =
          stats.filter (fun p => p.2 != 0) := rfl
      have hposne : stats.filter (fun p => p.2 != 0) ≠ [] := by
        intro hnil
        rw [hpos1, hnil] at hc
        simp at hc
      obtain ⟨x, xs, hxs⟩ : ∃ x xs, stats.filter (fun p => p.2 != 0) = x :: xs := by
        cases hfc : stats.filter (fun p => p.2 != 0) with
        | nil => exact absurd hfc hposne
        | cons x xs => exact ⟨x, xs, rfl⟩
      obtain ⟨y, hy, hyv⟩ := (minVal_spec x xs).2
      have hy2 : y ∈ stats.filter (fun p => p.2 != 0) := by rw [hxs]; exact hy
      obtain ⟨hystats, hyne⟩ := List.mem_filter.mp hy2
      have hyne2 : y.2 ≠ 0 := by simpa using hyne
      have hkmem : y.1 ∈ ks := by
        rw [hks]
        unfold find_least_prominent
        apply List.mem_map.mpr
        refine ⟨y, List.mem_filter.mpr ⟨hy2, ?_⟩, rfl⟩
        rw [hxs]
        simpa using hyv
      -- y comes from the closed-form stats
      obtain ⟨p2, hp2, hpeq⟩ := List.mem_map.mp (hstats ▸ hystats)
      have hk_props : y.1 ∈ props := by
        rw [← hpeq]
        exact hp2
      have hcnt : cnt (b0 :: rest) y.1 ≠ 0 := by
        have : y.2 = cnt (b0 :: rest) p2 := by rw [← hpeq]
        rw [show y.1 = p2 from by rw [← hpeq]]
        rw [← this]
        exact hyne2
      -- live strictly decreases
      apply length_filter_strict
      · intro p hp2m hq
        have hq2 := of_decide_eq_true hq
        obtain ⟨b2, hb2, hpb2⟩ := hq2
        rw [discard_eq_map] at hb2
        obtain ⟨b, hb, hbeq⟩ := List.mem_map.mp hb2
        apply decide_eq_true
        refine ⟨b, hb, ?_⟩
        rw [← hbeq, in_favour_multi] at hpb2
        exact foldl_erase_subset ks b.in_favour hpb2
      · exact hk_props
      · -- y.1 favoured before
        apply decide_eq_true
        have hcpos : 0 < (b0 :: rest).countP (headIs y.1) := Nat.pos_of_ne_zero hcnt
        obtain ⟨b, hb, hhead⟩ := List.countP_pos_iff.mp hcpos
        exact ⟨b, hb, mem_of_head_eq _ _ (by
          have : headIs y.1 b = true := hhead
          simpa [headIs] using this)⟩
      · -- y.1 not favoured after
        apply decide_eq_false
        intro hcon
        obtain ⟨b2, hb2, hpb2⟩ := hcon
        exact discard_not_mem ks (b0 :: rest) (fun b hb => (hball b hb).1)
          y.1 hkmem b2 hb2 hpb2



/-- Fuel exceeding the live count suffices to reach an outcome. -/
lemma runIRV_done (tn td : ℕ) (props : List String) : ∀ (fuel : ℕ)
    (entries : List Ballot), GoodBox props entries →
    live props entries < fuel →
    ∃ o, runIRV tn td fuel entries = .done o := by
  intro fuel
  induction fuel with
  | zero =>
    intro entries _ h
    omega
  | succ f ih =>
    intro entries hg hlt
    rcases roundStep_cases tn td props entries hg with ⟨o, ho⟩ | ⟨e2, he2, hg2, hdec⟩
    · exact ⟨o, by simp [runIRV, ho]⟩
    · obtain ⟨o, ho⟩ := ih e2 hg2 (by omega)
      exact ⟨o, by simp [runIRV, he2, ho]⟩

/-- Under the loop invariant no amount of fuel makes the loop abort. -/
lemma runIRV_no_crash (tn td : ℕ) (props : List String) : ∀ (fuel : ℕ)
    (entries : List Ballot), GoodBox props entries →
    runIRV tn td fuel entries ≠ .crashed := by
  intro fuel
  induction fuel with
  | zero =>
    intro entries _
    simp [runIRV]
  | succ f ih =>
    intro entries hg
    rcases roundStep_cases tn td props entries hg with ⟨o, ho⟩ | ⟨e2, he2, hg2, _⟩
    · simp [runIRV, ho]
    · simp only [runIRV, he2]
      exact ih e2 hg2

/-- The live count never exceeds the number of proposals. -/
lemma live_le (props : List String) (entries : List Ballot) :
    live props entries ≤ props.length :=
  List.length_filter_le _ _

/-- A non-empty box of validated ballots over one shared non-empty
duplicate-free proposal tuple satisfies the loop invariant. -/
lemma goodBox_of_valid (b0 : Ballot) (rest : List Ballot)
    (hpne : b0.proposals ≠ []) (hnd : b0.proposals.Nodup)
    (hsame : ∀ b ∈ b0 :: rest, b.proposals = b0.proposals)
    (hvalid : ∀ b ∈ b0 :: rest, b.Valid) :
    GoodBox b0.proposals (b0 :: rest) := by
  refine ⟨by simp, hpne, hnd, hsame, ?_⟩
  intro b hb
  have hv := (validate_ok_iff b).mp (hvalid b hb)
  constructor
  · exact hv.1.of_append_right
  · intro x hx
    have hxall : x ∈ b.all_votes := List.mem_append_right _ hx
    have hxp := hv.2 x hxall
    rw [hsame b hb] at hxp
    exact hxp

/-- C6 (amended): for every non-empty finite proposal set and every
participation-valid box of validated ballots cast against that same set,
the election loop reaches an Accepted or NoneAccepted outcome within at
most |proposals| + 1 rounds: every non-terminal round removes at least
one proposal still favoured by some ballot, and one further round stops
via the acceptance or exhaustion check. -/
theorem election_terminates (tn td : ℕ) (box : BallotBox) (b0 : Ballot)
    (rest : List Ballot) (he : box.entries = b0 :: rest)
    (hpne : b0.proposals ≠ []) (hnd : b0.proposals.Nodup)
    (hsame : ∀ b ∈ box.entries, b.proposals = b0.proposals)
    (hvalid : ∀ b ∈ box.entries, b.Valid)
    (_hpart : box.validate_participation ELIGIBLE_VOTERS 3 4 = none) :
    ∃ o, runIRV tn td (b0.proposals.length + 1) box.entries = .done o := by
  rw [he] at hsame hvalid ⊢
  have hg := goodBox_of_valid b0 rest hpne hnd hsame hvalid
  exact runIRV_done tn td b0.proposals (b0.proposals.length + 1) (b0 :: rest) hg
    (Nat.lt_succ_of_le (live_le _ _))

/-- C6 witness: the termination bound applied to a concrete two-proposal
box of four validated ballots. -/
theorem election_terminates_witness :
    ∃ o, runIRV 1 3 3 entriesW6 = .done o :=
  election_terminates 1 3 ⟨entriesW6, 2⟩
    ⟨["p1", "p2"], ⟨some ["p1", "p2"], none⟩⟩
    [ ⟨["p1", "p2"], ⟨some ["p2", "p1"], none⟩⟩,
      ⟨["p1", "p2"], ⟨some ["p2"], some ["p1"]⟩⟩,
      ⟨["p1", "p2"], ⟨none, some ["p1", "p2"]⟩⟩ ]
    (by decide) (by decide) (by decide) (by decide) (by decide) (by decide)

/-- C6 counterexample: a participation-valid single-proposal election of
validated ballots that rests unresolved after |proposals| = 1 rounds and
reaches its NoneAccepted outcome only in round 2: round one eliminates
the lone proposal but the exhaustion check still sees its positive count,
so a second round is needed. -/
theorem termination_bound_counterexample :
    (∀ b ∈ entriesT, b.Valid)
    ∧ (∀ b ∈ entriesT, b.proposals = ["p1"])
    ∧ (BallotBox.mk entriesT 1).validate_participation ELIGIBLE_VOTERS 3 4 = none
    ∧ runIRV 1 3 1 entriesT = .outOfFuel
    ∧ runIRV 1 3 2 entriesT = .done .NoneAccepted := by
  refine ⟨by decide, by decide, by decide, by decide, by decide⟩

/-- C10 (amended): when the box is non-empty, every ballot references
the same proposal set as the first ballot, and that set is non-empty,
every tally lookup of round_stats hits an initialized key and
find_most_prominent ranges over a non-empty counter, so no round of the
election loop can reach either failure branch, whatever the fuel. -/
theorem tally_and_max_never_fail (tn td : ℕ) (box : BallotBox) (b0 : Ballot)
    (rest : List Ballot) (he : box.entries = b0 :: rest)
    (hpne : b0.proposals ≠ []) (hnd : b0.proposals.Nodup)
    (hsame : ∀ b ∈ box.entries, b.proposals = b0.proposals)
    (hvalid : ∀ b ∈ box.entries, b.Valid) :
    (∃ stats, round_stats box.entries = some stats ∧ stats ≠ [] ∧
      ∃ l, find_most_prominent stats = some l)
    ∧ ∀ fuel, runIRV tn td fuel box.entries ≠ .crashed := by
  rw [he] at hsame hvalid ⊢
  have hg := goodBox_of_valid b0 rest hpne hnd hsame hvalid
  constructor
  · have hheads : ∀ b ∈ b0 :: rest, ∀ x, b.in_favour.head? = some x →
        x ∈ b0.proposals := by
      intro b hb x hx
      exact (hg.2.2.2.2 b hb).2 x (mem_of_head_eq _ _ hx)
    refine ⟨b0.proposals.map (fun p => (p, cnt (b0 :: rest) p)),
      round_stats_closed b0 rest hnd hheads, ?_, ?_⟩
    · intro hcon
      exact hpne (List.map_eq_nil_iff.mp hcon)
    · cases hsc : b0.proposals.map (fun p => (p, cnt (b0 :: rest) p)) with
      | nil => exact absurd (List.map_eq_nil_iff.mp hsc) hpne
      | cons x xs => exact ⟨_, rfl⟩
  · intro fuel
    exact runIRV_no_crash tn td b0.proposals fuel (b0 :: rest) hg

/-- C10 witness: the safety property at a concrete two-proposal box. -/
theorem tally_and_max_never_fail_witness :
    (∃ stats, round_stats entriesW6 = some stats ∧ stats ≠ [] ∧
      ∃ l, find_most_prominent stats = some l)
    ∧ ∀ fuel, runIRV 1 3 fuel entriesW6 ≠ .crashed :=
  tally_and_max_never_fail 1 3 ⟨entriesW6, 2⟩
    ⟨["p1", "p2"], ⟨some ["p1", "p2"], none⟩⟩
    [ ⟨["p1", "p2"], ⟨some ["p2", "p1"], none⟩⟩,
      ⟨["p1", "p2"], ⟨some ["p2"], some ["p1"]⟩⟩,
      ⟨["p1", "p2"], ⟨none, some ["p1", "p2"]⟩⟩ ]
    (by decide) (by decide) (by decide) (by decide) (by decide)

/-- C10 counterexample: four validated ballots all referencing the same
empty proposal tuple give a non-empty box satisfying the claim's stated
preconditions, yet round one aborts: the counter is empty and Python max
raises, so the failure branch of find_most_prominent is reached. -/
theorem safety_counterexample :
    entriesE ≠ []
    ∧ (∀ b ∈ entriesE, b.Valid)
    ∧ (∀ b ∈ entriesE, b.proposals = [])
    ∧ (BallotBox.mk entriesE 0).validate_participation ELIGIBLE_VOTERS 3 4 = none
    ∧ runIRV 1 3 1 entriesE = .crashed := by
  refine ⟨by decide, by decide, by decide, by decide, by decide⟩


end IRVoting
